import Mathlib

/-
Verification of the custom-command registry of 3pseatBot
(`threepseat/cogs/commands.py`): a per-guild command store plus dynamic
registration of command handlers with the bot's dispatcher.

The embedding below mirrors the Python source.  Parts of the repository
that the cog calls but whose source is not available here
(`threepseat.utils.GuildDatabase`, `threepseat.utils.is_admin`, and the
`Bot` dispatcher methods) are modelled from the spec; each such
definition carries a doc comment starting with `Modelled from the spec:`.
-/

set_option autoImplicit false

/-- A guild (tenant) is used only as an opaque map key. -/
abbrev Guild := Nat

/- Association-list helpers: the persisted store maps guild ids to
dictionaries from command name to command text; both levels are modelled
as association lists with first-match lookup. -/

def alistGet {α β : Type} [DecidableEq α] (k : α) : List (α × β) → Option β
  | [] => none
  | (k', v) :: rest => if k' = k then some v else alistGet k rest

def alistSet {α β : Type} [DecidableEq α] (k : α) (v : β) : List (α × β) → List (α × β)
  | [] => [(k, v)]
  | (k', v') :: rest => if k' = k then (k, v) :: rest else (k', v') :: alistSet k v rest

def alistErase {α β : Type} [DecidableEq α] (k : α) : List (α × β) → List (α × β)
  | [] => []
  | (k', v) :: rest => if k' = k then alistErase k rest else (k', v) :: alistErase k rest

/-- One guild's table: command name to command text. -/
abbrev GuildTable := List (String × String)

/-- Modelled from the spec: `threepseat.utils.GuildDatabase` (not under
src/) persists `{guild_id -> {command_name -> command_text}}` and exposes
get/set/clear/enumerate-all operations. -/
structure GuildDatabase where
  tables : List (Guild × GuildTable)
deriving DecidableEq

/-- Modelled from the spec: point lookup `db.value(guild, key)`. -/
def GuildDatabase.value (db : GuildDatabase) (guild : Guild) (key : String) :
    Option String :=
  match alistGet guild db.tables with
  | none => none
  | some t => alistGet key t

/-- Modelled from the spec: `db.set(guild, key, v)` with
create-or-overwrite semantics. -/
def GuildDatabase.set (db : GuildDatabase) (guild : Guild) (key v : String) :
    GuildDatabase :=
  let t := (alistGet guild db.tables).getD []
  ⟨alistSet guild (alistSet key v t) db.tables⟩

/-- Modelled from the spec: `db.clear(guild, key)` removes the single
entry `(guild, key)` from the store. -/
def GuildDatabase.clear (db : GuildDatabase) (guild : Guild) (key : String) :
    GuildDatabase :=
  match alistGet guild db.tables with
  | none => db
  | some t => ⟨alistSet guild (alistErase key t) db.tables⟩

/-- A live handler installed in the dispatcher.  `make_command` in the
source builds a closure that captures `name` and `text`; the captured
text is recorded here so that its (non-)use at invocation time can be
stated. -/
structure Handler where
  name : String
  capturedText : String
deriving DecidableEq

/-- The dispatcher's lookup of a handler by command name. -/
def findHandler (name : String) : List Handler → Option Handler
  | [] => none
  | h :: rest => if h.name = name then some h else findHandler name rest

/-- Modelled from the spec: `Bot.add_command` (not under src/) installs a
handler keyed by name only; it does not re-install when a handler for
that name already exists (at most one handler per name). -/
def add_command (h : Handler) (disp : List Handler) : List Handler :=
  match findHandler h.name disp with
  | some _ => disp
  | none => h :: disp

/-- Modelled from the spec: `Bot.remove_command` (not under src/)
deregisters the handler bound to `name`; a no-op if absent. -/
def remove_command (name : String) (disp : List Handler) : List Handler :=
  disp.filter (fun h => h.name ≠ name)

/-- An actor, as far as the permission check observes it. -/
structure Member where
  guildAdmin : Bool
  botAdmin : Bool
  mention : String

/-- Modelled from the spec: `threepseat.utils.is_admin` (not under src/)
tests whether the actor holds the guild-admin role. -/
def is_admin (m : Member) : Bool := m.guildAdmin

/-- Modelled from the spec: `Bot.is_bot_admin` (not under src/) tests
whether the actor is a configured bot-level administrator. -/
def is_bot_admin (m : Member) : Bool := m.botAdmin

/-- Constructor arguments of the `Commands` cog, from `__init__`:
the three permission flags plus the bot's command prefix used in the
success notices. -/
structure Config where
  guild_admin_permission : Bool
  bot_admin_permission : Bool
  everyone_permission : Bool
  commandPfx : String

/-- `Commands.has_permission`, line for line from the source. -/
def has_permission (cfg : Config) (m : Member) : Bool :=
  if cfg.everyone_permission then true
  else if is_admin m || is_bot_admin m then true
  else false

/-- `Commands.make_command`: builds the handler bound to `name`,
capturing `text` in the closure. -/
def make_command (name text : String) : Handler := ⟨name, text⟩

/-- The body of the closure built by `make_command`: look up
`(invoking_guild, name)` in the store and send the stored text, or the
fixed notice when the lookup misses.  Returns the message sent. -/
def runHandler (db : GuildDatabase) (h : Handler) (guild : Guild) : String :=
  match db.value guild h.name with
  | none => "this command is not available in this guild"
  | some t => t

/-- The mutable state the cog touches: the persisted store and the
dispatcher's handler table. -/
structure CogState where
  db : GuildDatabase
  dispatcher : List Handler
deriving DecidableEq

/-- `Commands.add`: permission gate, then persist, then re-register the
handler; returns the new state and the messages sent to the channel. -/
def Commands.add (cfg : Config) (s : CogState) (actor : Member) (guild : Guild)
    (name text : String) : CogState × List String :=
  if !has_permission cfg actor then
    (s, [actor.mention ++ ", you do not have permission to add a command"])
  else
    ({ db := s.db.set guild name text,
       dispatcher := add_command (make_command name text)
                       (remove_command name s.dispatcher) },
     ["added command " ++ cfg.commandPfx ++ name])

/-- `Commands.remove`: permission gate, then deregister the handler and
clear the guild's entry; returns the new state and the messages sent. -/
def Commands.remove (cfg : Config) (s : CogState) (actor : Member) (guild : Guild)
    (name : String) : CogState × List String :=
  if !has_permission cfg actor then
    (s, [actor.mention ++ ", you do not have permission to remove a command"])
  else
    ({ db := s.db.clear guild name,
       dispatcher := remove_command name s.dispatcher },
     ["removed command " ++ cfg.commandPfx ++ name])

/-- Invocation through the dispatcher: when a user types `name` in
`guild`, the dispatcher runs the handler registered under `name`, if
any.  `none` means no handler is installed (the dispatcher does not know
the command); `some msg` is the message the handler sends. -/
def invoke (s : CogState) (guild : Guild) (name : String) : Option String :=
  match findHandler name s.dispatcher with
  | none => none
  | some h => some (runHandler s.db h guild)

/-- The startup loop of `Commands.__init__`: for every `(name, text)`
pair of every guild table, register a handler with the dispatcher. -/
def initDispatcher (tables : List (Guild × GuildTable)) : List Handler :=
  tables.foldl
    (fun disp gt =>
      gt.2.foldl (fun d nt => add_command (make_command nt.1 nt.2) d) disp)
    []

/-- All command names appearing in the persisted store, with
multiplicity. -/
def storeNames (tables : List (Guild × GuildTable)) : List String :=
  (tables.map (fun gt => gt.2.map Prod.fst)).flatten

/-! ### Association-list lemmas -/

theorem alistGet_set_self {α β : Type} [DecidableEq α] (k : α) (v : β)
    (l : List (α × β)) : alistGet k (alistSet k v l) = some v := by
  induction l with
  | nil => simp [alistSet, alistGet]
  | cons p rest ih =>
    obtain ⟨k', v'⟩ := p
    by_cases h : k' = k
    · simp [alistSet, alistGet, h]
    · simp [alistSet, alistGet, h, ih]

theorem alistGet_set_ne {α β : Type} [DecidableEq α] {k k' : α} (v : β)
    (h : k' ≠ k) (l : List (α × β)) :
    alistGet k' (alistSet k v l) = alistGet k' l := by
  induction l with
  | nil => simp [alistSet, alistGet, Ne.symm h]
  | cons p rest ih =>
    obtain ⟨k₀, v₀⟩ := p
    by_cases h0 : k₀ = k
    · subst h0
      simp [alistSet, alistGet, Ne.symm h]
    · simp [alistSet, alistGet, h0, ih]

theorem alistGet_erase_self {α β : Type} [DecidableEq α] (k : α)
    (l : List (α × β)) : alistGet k (alistErase k l) = none := by
  induction l with
  | nil => rfl
  | cons p rest ih =>
    obtain ⟨k₀, v₀⟩ := p
    by_cases h0 : k₀ = k
    · simpa [alistErase, h0] using ih
    · simpa [alistErase, alistGet, h0] using ih

theorem alistGet_erase_ne {α β : Type} [DecidableEq α] {k k' : α}
    (h : k' ≠ k) (l : List (α × β)) :
    alistGet k' (alistErase k l) = alistGet k' l := by
  induction l with
  | nil => rfl
  | cons p rest ih =>
    obtain ⟨k₀, v₀⟩ := p
    by_cases h0 : k₀ = k
    · subst h0
      simpa [alistErase, alistGet, Ne.symm h] using ih
    · simp [alistErase, alistGet, h0, ih]

/-! ### Store lemmas -/

theorem GuildDatabase.value_set_self (db : GuildDatabase) (g : Guild)
    (k v : String) : (db.set g k v).value g k = some v := by
  simp [GuildDatabase.set, GuildDatabase.value, alistGet_set_self]

theorem GuildDatabase.value_set_other (db : GuildDatabase) (g g' : Guild)
    (k k' v : String) (h : g' ≠ g ∨ k' ≠ k) :
    (db.set g k v).value g' k' = db.value g' k' := by
  by_cases hg : g' = g
  · subst hg
    have hk : k' ≠ k := h.resolve_left (by simp)
    simp only [GuildDatabase.set, GuildDatabase.value, alistGet_set_self,
      alistGet_set_ne v hk]
    cases hdb : alistGet g' db.tables <;> simp [hdb, alistGet]
  · simp [GuildDatabase.set, GuildDatabase.value, alistGet_set_ne _ hg]

theorem GuildDatabase.value_clear_self (db : GuildDatabase) (g : Guild)
    (k : String) : (db.clear g k).value g k = none := by
  unfold GuildDatabase.clear
  cases hdb : alistGet g db.tables with
  | none => simp [GuildDatabase.value, hdb]
  | some t => simp [GuildDatabase.value, alistGet_set_self, alistGet_erase_self]

theorem GuildDatabase.value_clear_other (db : GuildDatabase) (g g' : Guild)
    (k k' : String) (h : g' ≠ g ∨ k' ≠ k) :
    (db.clear g k).value g' k' = db.value g' k' := by
  unfold GuildDatabase.clear
  cases hdb : alistGet g db.tables with
  | none => rfl
  | some t =>
    by_cases hg : g' = g
    · subst hg
      have hk : k' ≠ k := h.resolve_left (by simp)
      simp [GuildDatabase.value, alistGet_set_self, alistGet_erase_ne hk, hdb]
    · simp [GuildDatabase.value, alistGet_set_ne _ hg]

/-! ### Dispatcher lemmas -/

theorem findHandler_name {n : String} {d : List Handler} {h : Handler}
    (hf : findHandler n d = some h) : h.name = n := by
  induction d with
  | nil => cases hf
  | cons h0 rest ih =>
    by_cases h0n : h0.name = n
    · simp [findHandler, h0n] at hf
      rw [← hf]
      exact h0n
    · simp [findHandler, h0n] at hf
      exact ih hf

theorem findHandler_remove_self (n : String) (d : List Handler) :
    findHandler n (remove_command n d) = none := by
  induction d with
  | nil => rfl
  | cons h rest ih =>
    by_cases hn : h.name = n
    · simpa [remove_command, List.filter_cons, hn] using ih
    · simpa [remove_command, List.filter_cons, findHandler, hn] using ih

theorem findHandler_remove_ne {m n : String} (h : m ≠ n) (d : List Handler) :
    findHandler m (remove_command n d) = findHandler m d := by
  induction d with
  | nil => rfl
  | cons h0 rest ih =>
    by_cases h0n : h0.name = n
    · simp [remove_command, List.filter_cons, findHandler, h0n, Ne.symm h] at *
      exact ih
    · by_cases h0m : h0.name = m
      · simp [remove_command, List.filter_cons, findHandler, h0n, h0m, h]
      · simp [remove_command, List.filter_cons, findHandler, h0n, h0m] at *
        exact ih

theorem findHandler_after_add (n t : String) (d : List Handler) :
    findHandler n (add_command (make_command n t) (remove_command n d)) =
      some ⟨n, t⟩ := by
  unfold add_command make_command
  rw [show (Handler.mk n t).name = n from rfl, findHandler_remove_self]
  simp [findHandler]

/-! ### Handler-name bookkeeping for the startup loop -/

/-- The names of the handlers currently installed in the dispatcher. -/
def hnames (d : List Handler) : List String := d.map Handler.name

theorem findHandler_eq_none_iff (n : String) (d : List Handler) :
    findHandler n d = none ↔ n ∉ hnames d := by
  induction d with
  | nil => simp [findHandler, hnames]
  | cons h rest ih =>
    by_cases hn : h.name = n
    · simp [findHandler, hnames, hn]
    · simp [findHandler, hnames, hn, ih, Ne.symm hn]

theorem hnames_add_command (h : Handler) (d : List Handler) :
    hnames (add_command h d) =
      if h.name ∈ hnames d then hnames d else h.name :: hnames d := by
  unfold add_command
  cases hf : findHandler h.name d with
  | none =>
    have hm := (findHandler_eq_none_iff h.name d).mp hf
    rw [if_neg hm]
    rfl
  | some h0 =>
    have hm : h.name ∈ hnames d := by
      by_contra hc
      rw [← findHandler_eq_none_iff] at hc
      rw [hc] at hf
      cases hf
    rw [if_pos hm]

theorem nodup_hnames_add_command (h : Handler) (d : List Handler)
    (hd : (hnames d).Nodup) : (hnames (add_command h d)).Nodup := by
  rw [hnames_add_command]
  by_cases hm : h.name ∈ hnames d <;> simp [hm, hd]

theorem mem_hnames_table_foldl (t : GuildTable) (d : List Handler) (x : String) :
    (x ∈ hnames (t.foldl (fun d0 nt => add_command (make_command nt.1 nt.2) d0) d)
      ↔ x ∈ hnames d ∨ x ∈ t.map Prod.fst) := by
  induction t generalizing d with
  | nil => simp
  | cons nt rest ih =>
    rw [List.foldl_cons, ih, hnames_add_command,
      show (make_command nt.1 nt.2).name = nt.1 from rfl]
    by_cases hm : nt.1 ∈ hnames d
    · rw [if_pos hm]
      simp only [List.map_cons, List.mem_cons]
      constructor
      · rintro (hx | hx)
        · exact Or.inl hx
        · exact Or.inr (Or.inr hx)
      · rintro (hx | hx | hx)
        · exact Or.inl hx
        · refine Or.inl ?_
          rw [hx]
          exact hm
        · exact Or.inr hx
    · rw [if_neg hm]
      simp only [List.map_cons, List.mem_cons]
      tauto

theorem nodup_hnames_table_foldl (t : GuildTable) (d : List Handler)
    (hd : (hnames d).Nodup) :
    (hnames (t.foldl (fun d0 nt => add_command (make_command nt.1 nt.2) d0) d)).Nodup := by
  induction t generalizing d with
  | nil => exact hd
  | cons nt rest ih =>
    rw [List.foldl_cons]
    exact ih _ (nodup_hnames_add_command _ _ hd)

theorem mem_hnames_tables_foldl (tables : List (Guild × GuildTable))
    (d : List Handler) (x : String) :
    (x ∈ hnames (tables.foldl
        (fun disp gt => gt.2.foldl (fun d0 nt => add_command (make_command nt.1 nt.2) d0) disp) d)
      ↔ x ∈ hnames d ∨ x ∈ storeNames tables) := by
  induction tables generalizing d with
  | nil => simp [storeNames]
  | cons gt rest ih =>
    rw [List.foldl_cons, ih, mem_hnames_table_foldl]
    simp [storeNames]
    tauto

theorem nodup_hnames_tables_foldl (tables : List (Guild × GuildTable))
    (d : List Handler) (hd : (hnames d).Nodup) :
    (hnames (tables.foldl
        (fun disp gt => gt.2.foldl (fun d0 nt => add_command (make_command nt.1 nt.2) d0) disp) d)).Nodup := by
  induction tables generalizing d with
  | nil => exact hd
  | cons gt rest ih =>
    rw [List.foldl_cons]
    exact ih _ (nodup_hnames_table_foldl _ _ hd)

/-! ### The claims -/

/-- C1: for every guild, non-empty name and non-empty text, if the actor
has permission, then `add(actor, guild, name, text)` followed by
`invoke(guild, name)` sends exactly `text` to the channel. -/
theorem C1_add_then_invoke (cfg : Config) (s : CogState) (actor : Member)
    (guild : Guild) (name text : String)
    (hp : has_permission cfg actor = true) (hn : name ≠ "") (ht : text ≠ "") :
    invoke (Commands.add cfg s actor guild name text).1 guild name = some text := by
  simp [Commands.add, hp, invoke, findHandler_after_add, runHandler,
    GuildDatabase.value_set_self]

/-- C1 witness: a concrete run of `add` then `invoke`. -/
theorem C1_add_then_invoke_witness :
    invoke (Commands.add ⟨true, true, false, "?"⟩ ⟨⟨[]⟩, []⟩
        ⟨true, false, "@u"⟩ 0 "hi" "hello").1 0 "hi" = some "hello" :=
  C1_add_then_invoke ⟨true, true, false, "?"⟩ ⟨⟨[]⟩, []⟩ ⟨true, false, "@u"⟩
    0 "hi" "hello" (by decide) (by decide) (by decide)

/-- C2: when a handler for `name` is installed, invocation looks up
`(invoking_guild, name)` in the persisted store; a hit sends the stored
text and a miss sends the fixed notice — never an exception. -/
theorem C2_invoke_lookup (s : CogState) (guild : Guild) (name : String)
    (h : Handler) (hf : findHandler name s.dispatcher = some h) :
    invoke s guild name =
      some (match s.db.value guild name with
            | some t => t
            | none => "this command is not available in this guild") := by
  have hn := findHandler_name hf
  simp only [invoke, hf, runHandler, hn]
  cases s.db.value guild name <;> rfl

/-- C2 witness: a hit in one guild and a miss in another, through the
same installed handler. -/
theorem C2_invoke_lookup_witness :
    invoke ⟨⟨[(0, [("hi", "hello")])]⟩, [⟨"hi", "x"⟩]⟩ 0 "hi" = some "hello" ∧
    invoke ⟨⟨[(0, [("hi", "hello")])]⟩, [⟨"hi", "x"⟩]⟩ 1 "hi" =
      some "this command is not available in this guild" := by
  constructor
  · have := C2_invoke_lookup ⟨⟨[(0, [("hi", "hello")])]⟩, [⟨"hi", "x"⟩]⟩ 0 "hi"
      ⟨"hi", "x"⟩ (by decide)
    rw [this]
    decide
  · have := C2_invoke_lookup ⟨⟨[(0, [("hi", "hello")])]⟩, [⟨"hi", "x"⟩]⟩ 1 "hi"
      ⟨"hi", "x"⟩ (by decide)
    rw [this]
    decide

/-- C3: when `has_permission` is false, `add` and `remove` each return
the state unchanged and send exactly one mention-addressed denial
notice. -/
theorem C3_denied_no_change (cfg : Config) (s : CogState) (actor : Member)
    (guild : Guild) (name text : String)
    (hp : has_permission cfg actor = false) :
    Commands.add cfg s actor guild name text =
      (s, [actor.mention ++ ", you do not have permission to add a command"]) ∧
    Commands.remove cfg s actor guild name =
      (s, [actor.mention ++ ", you do not have permission to remove a command"]) := by
  constructor <;> simp [Commands.add, Commands.remove, hp]

/-- C3 witness: a concrete denied `add` and `remove`. -/
theorem C3_denied_no_change_witness :
    Commands.add ⟨true, true, false, "?"⟩ ⟨⟨[(0, [("a", "1")])]⟩, [⟨"a", "1"⟩]⟩
        ⟨false, false, "@u"⟩ 0 "b" "2" =
      (⟨⟨[(0, [("a", "1")])]⟩, [⟨"a", "1"⟩]⟩,
        ["@u, you do not have permission to add a command"]) ∧
    Commands.remove ⟨true, true, false, "?"⟩ ⟨⟨[(0, [("a", "1")])]⟩, [⟨"a", "1"⟩]⟩
        ⟨false, false, "@u"⟩ 0 "a" =
      (⟨⟨[(0, [("a", "1")])]⟩, [⟨"a", "1"⟩]⟩,
        ["@u, you do not have permission to remove a command"]) :=
  C3_denied_no_change ⟨true, true, false, "?"⟩ ⟨⟨[(0, [("a", "1")])]⟩, [⟨"a", "1"⟩]⟩
    ⟨false, false, "@u"⟩ 0 "a" "2" (by decide)

/-- C5: `has_permission` is true exactly when the `everyone_permission`
flag is set, or the actor holds the guild-admin role, or the actor is a
configured bot-level administrator. -/
theorem C5_has_permission_iff (cfg : Config) (m : Member) :
    has_permission cfg m = true ↔
      (cfg.everyone_permission = true ∨ is_admin m = true ∨ is_bot_admin m = true) := by
  cases h1 : cfg.everyone_permission <;> cases h2 : m.guildAdmin <;>
    cases h3 : m.botAdmin <;>
    simp [has_permission, is_admin, is_bot_admin, h1, h2, h3]

/-- C6: two configurations that differ only in the
`guild_admin_permission` and `bot_admin_permission` flags give
`has_permission` the same value on every actor. -/
theorem C6_admin_flags_unused (cfg cfg' : Config) (m : Member)
    (he : cfg.everyone_permission = cfg'.everyone_permission)
    (hpfx : cfg.commandPfx = cfg'.commandPfx) :
    has_permission cfg m = has_permission cfg' m := by
  simp [has_permission, he]

/-- C6 witness: flipping both admin flags does not change the decision. -/
theorem C6_admin_flags_unused_witness :
    has_permission ⟨true, true, false, "?"⟩ ⟨false, false, "@u"⟩ =
      has_permission ⟨false, false, false, "?"⟩ ⟨false, false, "@u"⟩ :=
  C6_admin_flags_unused ⟨true, true, false, "?"⟩ ⟨false, false, false, "?"⟩
    ⟨false, false, "@u"⟩ (by decide) (by decide)

/-- C7: adding the same-named command in two distinct guilds keeps the
contents independent: after `add(A, x, t1)` then `add(B, x, t2)`,
`invoke(A, x)` sends `t1` and `invoke(B, x)` sends `t2`. -/
theorem C7_cross_guild_independence (cfg : Config) (s : CogState)
    (a1 a2 : Member) (A B : Guild) (x t1 t2 : String) (hAB : A ≠ B)
    (hp1 : has_permission cfg a1 = true) (hp2 : has_permission cfg a2 = true) :
    invoke (Commands.add cfg (Commands.add cfg s a1 A x t1).1 a2 B x t2).1 A x
      = some t1 ∧
    invoke (Commands.add cfg (Commands.add cfg s a1 A x t1).1 a2 B x t2).1 B x
      = some t2 := by
  constructor
  · simp only [Commands.add, hp1, hp2, Bool.not_true, Bool.false_eq_true,
      if_false, invoke, findHandler_after_add, runHandler]
    rw [GuildDatabase.value_set_other _ _ _ _ _ _ (Or.inl hAB),
      GuildDatabase.value_set_self]
  · simp only [Commands.add, hp1, hp2, Bool.not_true, Bool.false_eq_true,
      if_false, invoke, findHandler_after_add, runHandler]
    rw [GuildDatabase.value_set_self]

/-- C7 witness: guilds 0 and 1 with the same command name. -/
theorem C7_cross_guild_independence_witness :
    invoke (Commands.add ⟨true, true, true, "?"⟩
        (Commands.add ⟨true, true, true, "?"⟩ ⟨⟨[]⟩, []⟩
          ⟨false, false, "@u"⟩ 0 "x" "t1").1
        ⟨false, false, "@v"⟩ 1 "x" "t2").1 0 "x" = some "t1" ∧
    invoke (Commands.add ⟨true, true, true, "?"⟩
        (Commands.add ⟨true, true, true, "?"⟩ ⟨⟨[]⟩, []⟩
          ⟨false, false, "@u"⟩ 0 "x" "t1").1
        ⟨false, false, "@v"⟩ 1 "x" "t2").1 1 "x" = some "t2" :=
  C7_cross_guild_independence ⟨true, true, true, "?"⟩ ⟨⟨[]⟩, []⟩
    ⟨false, false, "@u"⟩ ⟨false, false, "@v"⟩ 0 1 "x" "t1" "t2"
    (by decide) (by decide) (by decide)

/-- C8: a permitted `remove(A, x)` clears exactly the store entry
`(A, x)`, leaves every other store entry unchanged, removes the
dispatcher handler for `x` globally, and leaves every other handler
lookup unchanged. -/
theorem C8_remove_frame (cfg : Config) (s : CogState) (actor : Member)
    (A : Guild) (x : String) (hp : has_permission cfg actor = true) :
    (Commands.remove cfg s actor A x).1.db.value A x = none ∧
    (∀ B y, B ≠ A ∨ y ≠ x →
      (Commands.remove cfg s actor A x).1.db.value B y = s.db.value B y) ∧
    findHandler x (Commands.remove cfg s actor A x).1.dispatcher = none ∧
    (∀ n, n ≠ x →
      findHandler n (Commands.remove cfg s actor A x).1.dispatcher =
        findHandler n s.dispatcher) := by
  refine ⟨?_, ?_, ?_, ?_⟩
  · simp [Commands.remove, hp, GuildDatabase.value_clear_self]
  · intro B y hBy
    simp [Commands.remove, hp, GuildDatabase.value_clear_other _ _ _ _ _ hBy]
  · simp [Commands.remove, hp, findHandler_remove_self]
  · intro n hn
    simp [Commands.remove, hp, findHandler_remove_ne hn]

/-- C8 witness: removing `"x"` in guild 0 leaves guild 1's entry in the
store but deregisters the shared handler. -/
theorem C8_remove_frame_witness :
    (Commands.remove ⟨true, true, true, "?"⟩
        ⟨⟨[(0, [("x", "t1")]), (1, [("x", "t2")])]⟩, [⟨"x", "t1"⟩]⟩
        ⟨false, false, "@u"⟩ 0 "x").1.db.value 0 "x" = none ∧
    (Commands.remove ⟨true, true, true, "?"⟩
        ⟨⟨[(0, [("x", "t1")]), (1, [("x", "t2")])]⟩, [⟨"x", "t1"⟩]⟩
        ⟨false, false, "@u"⟩ 0 "x").1.db.value 1 "x" = some "t2" ∧
    findHandler "x" (Commands.remove ⟨true, true, true, "?"⟩
        ⟨⟨[(0, [("x", "t1")]), (1, [("x", "t2")])]⟩, [⟨"x", "t1"⟩]⟩
        ⟨false, false, "@u"⟩ 0 "x").1.dispatcher = none := by
  have h := C8_remove_frame ⟨true, true, true, "?"⟩
    ⟨⟨[(0, [("x", "t1")]), (1, [("x", "t2")])]⟩, [⟨"x", "t1"⟩]⟩
    ⟨false, false, "@u"⟩ 0 "x" (by decide)
  refine ⟨h.1, ?_, h.2.2.1⟩
  rw [h.2.1 1 "x" (Or.inl (by decide))]
  decide

/-- C9: a permitted `remove` sends the success notice and completes even
when the command exists neither in the guild's store nor in the
dispatcher: no existence check precedes the deregistration and clear. -/
theorem C9_remove_nonexistent (cfg : Config) (s : CogState) (actor : Member)
    (guild : Guild) (name : String)
    (hp : has_permission cfg actor = true)
    (hdb : s.db.value guild name = none)
    (hd : findHandler name s.dispatcher = none) :
    (Commands.remove cfg s actor guild name).2 =
      ["removed command " ++ cfg.commandPfx ++ name] := by
  simp [Commands.remove, hp]

/-- C9 witness: removing a never-added command from an empty state. -/
theorem C9_remove_nonexistent_witness :
    (Commands.remove ⟨true, true, true, "?"⟩ ⟨⟨[]⟩, []⟩
        ⟨false, false, "@u"⟩ 0 "ghost").2 = ["removed command ?ghost"] := by
  have h := C9_remove_nonexistent ⟨true, true, true, "?"⟩ ⟨⟨[]⟩, []⟩
    ⟨false, false, "@u"⟩ 0 "ghost" (by decide) (by decide) (by decide)
  rw [h]
  decide

/-- C10: the handlers built by `make_command(name, t)` and
`make_command(name, t')` behave identically at invocation: the captured
text is never consulted, and the message sent is determined solely by
the store's entry for `(invoking_guild, name)` at invocation time. -/
theorem C10_captured_text_unused (name t t' : String) (db : GuildDatabase)
    (guild : Guild) :
    runHandler db (make_command name t) guild =
      runHandler db (make_command name t') guild ∧
    runHandler db (make_command name t) guild =
      (match db.value guild name with
       | some v => v
       | none => "this command is not available in this guild") := by
  constructor
  · rfl
  · simp only [runHandler, make_command]
    cases db.value guild name <;> rfl

/-- C4: for a persisted store with any number of guilds, startup
initialization installs exactly one dispatcher handler per distinct
command name: a later guild's entry for a name already handled does not
install a second handler. -/
theorem C4_init_handler_count (tables : List (Guild × GuildTable)) :
    (initDispatcher tables).length = (storeNames tables).dedup.length := by
  have hmem : ∀ x, x ∈ hnames (initDispatcher tables) ↔
      x ∈ (storeNames tables).dedup := by
    intro x
    rw [List.mem_dedup]
    have h := mem_hnames_tables_foldl tables [] x
    have h0 : x ∈ hnames ([] : List Handler) ↔ False := by simp [hnames]
    rw [h0, false_or] at h
    exact h
  have h2 : (hnames (initDispatcher tables)).Nodup :=
    nodup_hnames_tables_foldl tables [] (by simp [hnames])
  have h3 : ((storeNames tables).dedup).Nodup := List.nodup_dedup _
  have hlen := ((List.perm_ext_iff_of_nodup h2 h3).mpr hmem).length_eq
  simpa [hnames] using hlen
